import Mathlib

/-!
Shallow embedding of `samples/ios_sms_export/export_ios_sms.py` and proofs
about it.

Conventions of the embedding:
* Python strings are Lean `String`s (lists of characters); filesystem paths
  are plain strings joined with `"/"` (the `pathlib` joins in the script only
  ever append relative components).
* The filesystem is an explicit value of type `FS` threaded through the
  stateful functions; `shutil.copy2`, `mkdir`, `rmtree` and `open(...,"w")`
  become pure updates of that value.
* SQLite values reaching Python are modelled by `SqlValue`; Python floats are
  idealised as exact rationals, and the result of
  `apple_timestamp_to_datetime` is represented by the offset (in seconds,
  a rational) from `APPLE_EPOCH = 2001-01-01T00:00:00`, with `none` for
  Python's `None`.
* Raising an exception is modelled by `Except`, the error carrying the
  filesystem state at the moment of the raise (side effects performed before
  a raise persist, exactly as in Python).
-/

/-! ## Character and string helpers -/

/-- The character class `\w` of Python's `re` module together with `.` and
`-`: the characters NOT replaced by `re.sub(r"[^\w.-]+", "_", ...)`
(unicode word characters idealised as ASCII alphanumerics plus `_`). -/
def allowedChar (c : Char) : Bool :=
  c.isAlphanum || c == '_' || c == '.' || c == '-'

/-- `str.strip()` on the character list: drop whitespace on both ends. -/
def stripChars (l : List Char) : List Char :=
  ((l.dropWhile Char.isWhitespace).reverse.dropWhile Char.isWhitespace).reverse

/-- One pass of `re.sub(r"[^\w.-]+", "_", s)`: every maximal run of
disallowed characters becomes a single underscore.  The boolean flag records
whether we are inside a run whose underscore was already emitted. -/
def sanitizeAux : Bool → List Char → List Char
  | _, [] => []
  | inRun, c :: cs =>
    if allowedChar c then c :: sanitizeAux false cs
    else if inRun then sanitizeAux true cs
    else '_' :: sanitizeAux true cs

def sanitizeChars (l : List Char) : List Char := sanitizeAux false l

/-- `sanitize_filename` from the script:
`re.sub(r"[^\w.-]+", "_", handle.strip()) or "contact"`. -/
def sanitize_filename (handle : String) : String :=
  let sanitized : List Char := sanitizeChars (stripChars handle.data)
  if sanitized = [] then "contact" else ⟨sanitized⟩

/-- Decimal digit character, `48 + d` as a character (for `d < 10`). -/
def decDigitChar (d : Nat) : Char := Char.ofNat (48 + d)

/-- Fuelled most-significant-first decimal digit list of `n` (empty for 0).
`fuel ≥ n` is always enough fuel. -/
def decDigitsAux : Nat → Nat → List Char
  | 0, _ => []
  | fuel + 1, n =>
    if n = 0 then []
    else decDigitsAux fuel (n / 10) ++ [decDigitChar (n % 10)]

/-- Decimal rendering of a natural number, as Python's `str`/f-string. -/
def decRepr (n : Nat) : String :=
  if n = 0 then "0" else ⟨decDigitsAux n n⟩

/-- Value of a decimal digit string (used only to prove `decRepr` injective). -/
def decVal (l : List Char) : Nat :=
  l.foldl (fun a c => 10 * a + (c.toNat - 48)) 0

/-- Last component of a path: everything after the final `/`
(`pathlib.PurePath.name`). -/
def baseName (p : String) : String :=
  ⟨(p.data.reverse.takeWhile (fun c => c != '/')).reverse⟩

/-- Index of the last `.` of a filename, if any. -/
def lastDotIdx (n : List Char) : Option Nat :=
  match n.reverse.findIdx? (fun c => c == '.') with
  | some k => some (n.length - 1 - k)
  | none => none

/-- Index at which the `pathlib` suffix of a filename starts (`n.length` when
the filename has no suffix): the last dot, provided it is neither the leading
character nor the final character. -/
def splitExtIdx (n : List Char) : Nat :=
  match lastDotIdx n with
  | some i => if 0 < i ∧ i + 1 < n.length then i else n.length
  | none => n.length

/-- `pathlib` `stem` of a filename (assuming it has no `/`). -/
def pathStem (s : String) : String := ⟨s.data.take (splitExtIdx s.data)⟩

/-- `pathlib` `suffix` of a filename (assuming it has no `/`). -/
def pathExt (s : String) : String := ⟨s.data.drop (splitExtIdx s.data)⟩

/-- A string containing no path separator. -/
def noSlash (s : String) : Prop := '/' ∉ s.data

instance (s : String) : Decidable (noSlash s) := by
  unfold noSlash; infer_instance

/-- Python truthiness of an optional string (`None` and `""` are falsy). -/
def strTruthy : Option String → Bool
  | none => false
  | some s => !(s == "")

/-- Left-to-right non-overlapping replacement of `"\r\n"` by `"\n"`
(`str.replace("\r\n", "\n")`). -/
def replCRLF : List Char → List Char
  | '\r' :: '\n' :: cs => '\n' :: replCRLF cs
  | c :: cs => c :: replCRLF cs
  | [] => []

/-- Replacement of `"\r"` by `"\n"` (`str.replace("\r", "\n")`). -/
def replCR : List Char → List Char
  | '\r' :: cs => '\n' :: replCR cs
  | c :: cs => c :: replCR cs
  | [] => []

/-- `(row["text"] or "").replace("\r\n", "\n").replace("\r", "\n")`. -/
def normBody (s : String) : String := ⟨replCR (replCRLF s.data)⟩

/-- `", ".join(...)`. -/
def joinCommaSep : List String → String
  | [] => ""
  | [s] => s
  | s :: rest => s ++ ", " ++ joinCommaSep rest

/-! ## SQLite values and the timestamp normalizer -/

/-- A value as handed to Python by the `sqlite3` driver.  Floats are
idealised as exact rationals. -/
inductive SqlValue where
  | null
  | intv (n : Int)
  | floatv (q : ℚ)
  | textv (s : String)
deriving Repr, DecidableEq

/-- Truncation of a rational toward zero — Python's `int(float)`. -/
def ratTrunc (q : ℚ) : Int := if 0 ≤ q then ⌊q⌋ else ⌈q⌉

/-- Strict parser for `int(str)`: optional sign followed by at least one
decimal digit (`None` when `int(...)` would raise `ValueError`). -/
def parseIntText (s : String) : Option Int :=
  let digitsVal : List Char → Option Nat := fun l =>
    if l ≠ [] ∧ l.all (fun c => c.isDigit) then some (decVal l) else none
  match s.data with
  | '-' :: rest => (digitsVal rest).map (fun n => -(n : Int))
  | '+' :: rest => (digitsVal rest).map (fun n => (n : Int))
  | l => (digitsVal l).map (fun n => (n : Int))

/-- Python's `int(value)` on a SQLite value, `none` when the conversion
raises `TypeError`/`ValueError` (the script catches exactly these). -/
def pyInt : SqlValue → Option Int
  | .null => none
  | .intv n => some n
  | .floatv q => some (ratTrunc q)
  | .textv s => parseIntText s

/-- `apple_timestamp_to_datetime` from the script, returning the offset in
seconds from `APPLE_EPOCH` (2001-01-01T00:00:00) instead of a `datetime`,
and `none` for Python's `None` ("unknown").  The `value is None` guard is
subsumed by `pyInt` sending `null` to `none`. -/
def apple_timestamp_to_datetime (value : SqlValue) : Option ℚ :=
  match pyInt value with
  | none => none
  | some v =>
    if v = 0 then none
    else if v > 10 ^ 12 then some ((v : ℚ) / 1000000000)
    else some ((v : ℚ))

/-! ## The filesystem model -/

/-- Filesystem state: files with contents, plus a set of directories. -/
structure FS where
  files : List (String × String)
  dirs : List String
deriving Repr, DecidableEq

def FS.isFile (fs : FS) (p : String) : Bool := fs.files.any (fun e => e.1 == p)

def FS.isDir (fs : FS) (p : String) : Bool := fs.dirs.contains p

/-- `Path.exists()`. -/
def FS.existsPath (fs : FS) (p : String) : Bool := fs.isFile p || fs.isDir p

/-- `Path.mkdir(parents=True, exist_ok=True)` (parent bookkeeping elided:
only the directory itself is recorded). -/
def FS.mkdir (fs : FS) (p : String) : FS :=
  if fs.isDir p then fs else { fs with dirs := p :: fs.dirs }

def FS.getFile (fs : FS) (p : String) : Option String :=
  (fs.files.find? (fun e => e.1 == p)).map (fun e => e.2)

/-- `open(p, "w")` followed by writing `c`. -/
def FS.writeFile (fs : FS) (p c : String) : FS :=
  { fs with files := (p, c) :: fs.files.filter (fun e => !(e.1 == p)) }

/-- `shutil.copy2(src, dst)`. -/
def FS.copyFile (fs : FS) (src dst : String) : FS :=
  fs.writeFile dst ((fs.getFile src).getD "")

/-- `shutil.rmtree(p)`: removes the directory and everything below it. -/
def FS.rmtree (fs : FS) (p : String) : FS :=
  { files := fs.files.filter (fun e => !((p ++ "/").data.isPrefixOf e.1.data))
    dirs := fs.dirs.filter
      (fun d => !(d == p) && !((p ++ "/").data.isPrefixOf d.data)) }

/-- All paths (files and directories) present in the filesystem. -/
def FS.paths (fs : FS) : List String := fs.files.map Prod.fst ++ fs.dirs

/-! ## Attachment resolution -/

/-- The literal part of `ATTACHMENT_ANCHOR = re.compile(r"Library/SMS/Attachments/(.*)")`. -/
def anchorMarker : List Char := "Library/SMS/Attachments/".data

/-- Characters following the first occurrence of the anchor marker, if any. -/
def findMarker : List Char → Option (List Char)
  | [] => none
  | c :: cs =>
    if anchorMarker.isPrefixOf (c :: cs) then some ((c :: cs).drop anchorMarker.length)
    else findMarker cs

/-- `ATTACHMENT_ANCHOR.search(s)` followed by `.group(1)`: the remainder
after the first marker occurrence, up to the first newline (`.` in the regex
does not match `\n`). -/
def anchorGroup (s : String) : Option String :=
  (findMarker s.data).map (fun r => ⟨r.takeWhile (fun c => c != '\n')⟩)

/-- `resolve_attachment_path` from the script. -/
def resolve_attachment_path (raw_path : Option String) (attachments_root : String)
    (fs : FS) : Option String :=
  match raw_path with
  | none => none
  | some p =>
    if p = "" then none
    else
      match anchorGroup p with
      | none => none
      | some relative =>
        let candidate := attachments_root ++ "/Library/SMS/Attachments/" ++ relative
        if fs.existsPath candidate then some candidate
        else
          let candidate2 := attachments_root ++ "/" ++ relative
          if fs.existsPath candidate2 then some candidate2 else none

/-- Modelled from the spec's words for claim comparison (the code under test
is `resolve_attachment_path` above): "return the first existing on-disk path
matching one of two candidate constructions"; "if the marker pattern is
absent, or the primary candidate does not exist on disk, fall back to
treating the entire matched remainder (or nothing, if no marker found) as a
path directly under root". -/
def resolve_attachment_path_claimed (raw_path : String) (attachments_root : String)
    (fs : FS) : Option String :=
  match anchorGroup raw_path with
  | some relative =>
    let candidate := attachments_root ++ "/Library/SMS/Attachments/" ++ relative
    if fs.existsPath candidate then some candidate
    else
      let candidate2 := attachments_root ++ "/" ++ relative
      if fs.existsPath candidate2 then some candidate2 else none
  | none =>
    -- no marker: "nothing" as a path directly under root, i.e. root itself
    if fs.existsPath attachments_root then some attachments_root else none

/-- Modelled from the spec's words for claim comparison (the code under test
is `sanitize_filename` above): "replace every character outside the set
{letters, digits, underscore, period, hyphen} with underscore; an empty
result after sanitization falls back to a fixed placeholder token". -/
def sanitize_filename_claimed (handle : String) : String :=
  let sanitized : List Char :=
    handle.data.map (fun c => if allowedChar c then c else '_')
  if sanitized = [] then "contact" else ⟨sanitized⟩

/-! ## Rendering a timestamp (`strftime("%Y-%m-%d %H:%M:%S")`) -/

/-- Zero-padded two-digit decimal. -/
def pad2 (n : Nat) : String := if n < 10 then "0" ++ decRepr n else decRepr n

/-- Zero-padded four-digit decimal of a (possibly negative) year. -/
def pad4 (y : Int) : String :=
  let s := decRepr y.natAbs
  let padded := ⟨List.replicate (4 - s.length) '0'⟩ ++ s
  if y < 0 then "-" ++ padded else padded

/-- Proleptic Gregorian calendar date of day number `z` (days since
1970-01-01), the standard civil-from-days algorithm. -/
def civilFromDays (z0 : Int) : Int × Nat × Nat :=
  let z := z0 + 719468
  let era := z.fdiv 146097
  let doe := (z - era * 146097).toNat
  let yoe := (doe - doe / 1460 + doe / 36524 - doe / 146096) / 365
  let y : Int := (yoe : Int) + era * 400
  let doy := doe - (365 * yoe + yoe / 4 - yoe / 100)
  let mp := (5 * doy + 2) / 153
  let d := doy - (153 * mp + 2) / 5 + 1
  let m := if mp < 10 then mp + 3 else mp - 9
  (if m ≤ 2 then y + 1 else y, m, d)

/-- Number of days from 1970-01-01 to `APPLE_EPOCH` (2001-01-01). -/
def appleEpochDays : Int := 11323

/-- `(APPLE_EPOCH + timedelta(seconds=q)).strftime("%Y-%m-%d %H:%M:%S")`,
sub-second part floored away (the format has no sub-second field; exact
float/microsecond rounding is idealised as truncation). -/
def fmtDatetime (q : ℚ) : String :=
  let total : Int := ⌊q⌋
  let days := total.fdiv 86400
  let sod := (total - days * 86400).toNat
  let ymd := civilFromDays (days + appleEpochDays)
  pad4 ymd.1 ++ "-" ++ pad2 ymd.2.1 ++ "-" ++ pad2 ymd.2.2 ++ " " ++
    pad2 (sod / 3600) ++ ":" ++ pad2 (sod % 3600 / 60) ++ ":" ++ pad2 (sod % 60)

/-! ## The database model and `fetch_messages` -/

/-- A row of the `message` table (the columns the query touches).  The
`date` column is `NULL`, an integer or a real; integers and reals are both
modelled as rationals (SQLite compares them numerically). -/
structure MessageRec where
  rowid : Int
  handle_id : Int
  date : Option ℚ
  is_from_me : Bool
  text : Option String
  cache_roomnames : Option String
deriving Repr, DecidableEq

/-- A row of the `handle` table. -/
structure HandleRec where
  rowid : Int
  id : String
deriving Repr, DecidableEq

/-- A row of the `attachment` table (the selected columns). -/
structure AttachRec where
  rowid : Int
  filename : Option String
  transfer_name : Option String
  mime_type : Option String
deriving Repr, DecidableEq

/-- The fixed schema the query runs against.  `message_attachment_join`
rows are `(message_id, attachment_id)` pairs. -/
structure DB where
  message : List MessageRec
  handle : List HandleRec
  message_attachment_join : List (Int × Int)
  attachment : List AttachRec
deriving Repr, DecidableEq

/-- One result row of the query in `fetch_messages`. -/
structure Row where
  message_id : Int
  handle_id : Int
  date : Option ℚ
  is_from_me : Bool
  text : Option String
  cache_roomnames : Option String
  filename : Option String
  transfer_name : Option String
  mime_type : Option String
deriving Repr, DecidableEq

/-- Build a result row from a message row and an optional attachment row
(the two `LEFT JOIN`s yield `NULL` attachment columns when absent). -/
def mkRow (m : MessageRec) (a : Option AttachRec) : Row :=
  { message_id := m.rowid
    handle_id := m.handle_id
    date := m.date
    is_from_me := m.is_from_me
    text := m.text
    cache_roomnames := m.cache_roomnames
    filename := a.bind (fun x => x.filename)
    transfer_name := a.bind (fun x => x.transfer_name)
    mime_type := a.bind (fun x => x.mime_type) }

/-- The query's `FROM`/`JOIN`/`WHERE` part, before `ORDER BY`:
`message JOIN handle ON h.ROWID = m.handle_id`, filtered by `h.id = ?`,
`LEFT JOIN message_attachment_join`, `LEFT JOIN attachment`. -/
def joinedRows (db : DB) (handle_identifier : String) : List Row :=
  db.message.flatMap fun m =>
    (db.handle.filter (fun h => h.rowid == m.handle_id && h.id == handle_identifier)).flatMap
      fun _h =>
        match db.message_attachment_join.filter (fun mj => mj.1 == m.rowid) with
        | [] => [mkRow m none]
        | mjs =>
          mjs.map fun mj => mkRow m (db.attachment.find? (fun a => a.rowid == mj.2))

/-- SQLite `ORDER BY` comparison on the `date` column: `NULL` sorts before
every non-`NULL` value, numbers compare numerically. -/
def dateLtB : Option ℚ → Option ℚ → Bool
  | none, some _ => true
  | some x, some y => decide (x < y)
  | _, _ => false

/-- The `ORDER BY m.date, m.ROWID` ordering on result rows. -/
def rowLe (a b : Row) : Prop :=
  dateLtB a.date b.date = true ∨ (a.date = b.date ∧ a.message_id ≤ b.message_id)

instance : DecidableRel rowLe := by
  unfold rowLe; infer_instance

instance : IsTotal Row rowLe where
  total a b := by
    unfold rowLe
    rcases ha : a.date with _ | x <;> rcases hb : b.date with _ | y
    · rcases Int.le_total a.message_id b.message_id with h | h
      · exact Or.inl (Or.inr ⟨rfl, h⟩)
      · exact Or.inr (Or.inr ⟨rfl, h⟩)
    · exact Or.inl (Or.inl rfl)
    · exact Or.inr (Or.inl rfl)
    · rcases lt_trichotomy x y with h | h | h
      · exact Or.inl (Or.inl (by simp [dateLtB, h]))
      · rcases Int.le_total a.message_id b.message_id with h2 | h2
        · exact Or.inl (Or.inr ⟨by rw [h], h2⟩)
        · exact Or.inr (Or.inr ⟨by rw [h], h2⟩)
      · exact Or.inr (Or.inl (by simp [dateLtB, h]))

instance : IsTrans Row rowLe where
  trans a b c hab hbc := by
    unfold rowLe at *
    rcases hab with hab | ⟨hab, hab2⟩ <;> rcases hbc with hbc | ⟨hbc, hbc2⟩
    · left
      rcases ha : a.date with _ | x <;> rcases hb : b.date with _ | y <;>
        rcases hc : c.date with _ | z <;>
        simp_all [dateLtB]
      exact lt_trans hab hbc
    · left; rw [← hbc]; exact hab
    · left; rw [hab]; exact hbc
    · right; exact ⟨hab.trans hbc, hab2.trans hbc2⟩

/-- `fetch_messages`: the filtered join, sorted by
`ORDER BY m.date, m.ROWID` (modelled as a stable insertion sort). -/
def fetch_messages (db : DB) (handle_identifier : String) : List Row :=
  List.insertionSort rowLe (joinedRows db handle_identifier)

/-! ## Collision-safe destination naming and `format_message` -/

/-- The candidate destination filenames tried by the `while destination.exists()`
loop: the name itself, then `f"{base_name}_{suffix}{suffix_str}"` for
`suffix = 1, 2, ...` (`base_name`/`suffix_str` are the `stem`/`suffix` of the
first candidate). -/
def candName (name : String) (i : Nat) : String :=
  if i = 0 then name else pathStem name ++ "_" ++ decRepr i ++ pathExt name

/-- The loop itself, fuelled: try candidates `i, i+1, ...` until one does not
exist.  The fuel used by `nextFreeName` is always sufficient because the
filesystem is finite and the candidates are pairwise distinct. -/
def nextFreeNameAux (ex : String → Bool) (dir name : String) : Nat → Nat → String
  | 0, i => candName name i
  | fuel + 1, i =>
    if ex (dir ++ "/" ++ candName name i) then nextFreeNameAux ex dir name fuel (i + 1)
    else candName name i

/-- Final destination filename chosen for `name` inside `dir`. -/
def nextFreeName (fs : FS) (dir name : String) : String :=
  nextFreeNameAux (fun p => fs.existsPath p) dir name (fs.paths.length + 1) 0

/-- `"Unbekannte Zeit"` or the formatted timestamp of a row. -/
def timestampText (row : Row) : String :=
  match apple_timestamp_to_datetime
      (match row.date with | none => SqlValue.null | some q => SqlValue.floatv q) with
  | none => "Unbekannte Zeit"
  | some q => fmtDatetime q

/-- `"Ich" if row["is_from_me"] else handle_identifier`. -/
def senderText (row : Row) (handle_identifier : String) : String :=
  if row.is_from_me then "Ich" else handle_identifier

/-- The body with CR/CRLF normalised, `"(kein Text)"` when empty. -/
def bodyText (row : Row) : String :=
  let body := normBody ((row.text).getD "")
  if body = "" then "(kein Text)" else body

/-- The transcript line without the attachment note. -/
def lineBase (row : Row) (handle_identifier : String) : String :=
  "[" ++ timestampText row ++ "] " ++ senderText row handle_identifier ++ ": " ++
    bodyText row

/-- The German "attachment not found in the backup" marker of the script. -/
def notFoundNote : String := "(Anhang nicht gefunden im Backup)"

/-- `row["transfer_name"] or attachment_path.name`: the preferred
destination filename of a resolved attachment. -/
def destNameOf (row : Row) (attachment_path : String) : String :=
  match row.transfer_name with
  | some t => if t = "" then baseName attachment_path else t
  | none => baseName attachment_path

/-- Result of `format_message`, together with the updated filesystem and
(for the proofs) the destination filename of the copy, when one happened. -/
structure FmtOut where
  line : String
  attachments : List String
  copied : Option String
  fs : FS
deriving Repr, DecidableEq

/-- `format_message` from the script.  The media branch runs when
`include_media and attachments_dir and attachments_root` is truthy; on a
successful resolution it creates the media directory, picks a collision-free
destination name, copies the file and records `destination.name`. -/
def format_message_core (fs : FS) (row : Row) (handle_identifier : String)
    (attachments_dir attachments_root : Option String) (include_media : Bool) :
    FmtOut :=
  let step : List String × Option String × Option String × FS :=
    match include_media, attachments_dir, attachments_root with
    | true, some adir, some aroot =>
      match resolve_attachment_path row.filename aroot fs with
      | some attachment_path =>
        let fsA := fs.mkdir adir
        let destination_name := destNameOf row attachment_path
        let final := nextFreeName fsA adir destination_name
        let destination := adir ++ "/" ++ final
        let fsB := fsA.copyFile attachment_path destination
        ([baseName destination], some attachment_path, some final, fsB)
      | none => ([], none, none, fs)
    | _, _, _ => ([], none, none, fs)
  let attachments :=
    if strTruthy row.filename && include_media && step.2.1.isNone then
      step.1 ++ [notFoundNote]
    else step.1
  let attachment_note :=
    if attachments.isEmpty then ""
    else " " ++ joinCommaSep (attachments.map (fun name => "[Anhang: " ++ name ++ "]"))
  { line := lineBase row handle_identifier ++ attachment_note
    attachments := attachments
    copied := step.2.2.1
    fs := step.2.2.2 }

/-- The pair actually returned by the Python `format_message`. -/
def format_message (fs : FS) (row : Row) (handle_identifier : String)
    (attachments_dir attachments_root : Option String) (include_media : Bool) :
    String × List String :=
  let o := format_message_core fs row handle_identifier attachments_dir
    attachments_root include_media
  (o.line, o.attachments)

/-! ## `export_for_contact` -/

/-- The writer loop of `export_for_contact`: format every row in order,
threading the filesystem through the media copies. -/
def runRows (fs : FS) (rows : List Row) (handle_identifier : String)
    (attachments_dir attachments_root : Option String) (include_media : Bool) :
    FS × List FmtOut :=
  match rows with
  | [] => (fs, [])
  | row :: rest =>
    let o := format_message_core fs row handle_identifier attachments_dir
      attachments_root include_media
    let r := runRows o.fs rest handle_identifier attachments_dir attachments_root
      include_media
    (r.1, o :: r.2)

/-- The exceptions `export_for_contact` can raise. -/
inductive ExportErr where
  | fileExistsErr (p : String)
  | dirExistsErr (p : String)
  | noData (handle_identifier : String)
deriving Repr, DecidableEq

/-- `ensure_output_path`: fail if the output file exists and overwrite was
not requested, otherwise create the parent directory. -/
def ensure_output_path (fs : FS) (path parent : String) (overwrite : Bool) :
    Except (ExportErr × FS) FS :=
  if fs.existsPath path && !overwrite then Except.error (.fileExistsErr path, fs)
  else Except.ok (fs.mkdir parent)

/-- `export_for_contact` from the script.  Errors carry the filesystem state
at the moment of the raise; success returns the new state and the transcript
path. -/
def export_for_contact (fs : FS) (db : DB) (handle_identifier : String)
    (output_dir : String) (attachments_root : Option String)
    (include_media overwrite : Bool) : Except (ExportErr × FS) (FS × String) :=
  let sanitized := sanitize_filename handle_identifier
  let text_path := output_dir ++ "/" ++ sanitized ++ ".txt"
  match ensure_output_path fs text_path output_dir overwrite with
  | Except.error e => Except.error e
  | Except.ok fs1 =>
    let attachments_dir : Option String :=
      if include_media then some (output_dir ++ "/" ++ sanitized ++ "_attachments")
      else none
    let checked : Except (ExportErr × FS) FS :=
      match attachments_dir with
      | some adir =>
        if fs1.existsPath adir && !overwrite then Except.error (.dirExistsErr adir, fs1)
        else if fs1.existsPath adir && overwrite then Except.ok (fs1.rmtree adir)
        else Except.ok fs1
      | none => Except.ok fs1
    match checked with
    | Except.error e => Except.error e
    | Except.ok fs2 =>
      let rows := fetch_messages db handle_identifier
      if rows.isEmpty then Except.error (.noData handle_identifier, fs2)
      else
        let r := runRows fs2 rows handle_identifier attachments_dir
          attachments_root include_media
        let content := String.join (r.2.map (fun o => o.line ++ "\n"))
        Except.ok (r.1.writeFile text_path content, text_path)

/-- Name of the attachment subdirectory of a contact. -/
def attachmentsDirOf (output_dir handle_identifier : String) : String :=
  output_dir ++ "/" ++ sanitize_filename handle_identifier ++ "_attachments"

/-- Path of the transcript file of a contact. -/
def textPathOf (output_dir handle_identifier : String) : String :=
  output_dir ++ "/" ++ sanitize_filename handle_identifier ++ ".txt"

/-- Destination names of the attachment copies actually performed by a run. -/
def copiedNames (outs : List FmtOut) : List String :=
  outs.filterMap (fun o => o.copied)

/-! ## Basic lemmas: strings, decimal rendering, filesystem -/

theorem str_ext {s t : String} (h : s.data = t.data) : s = t := by
  cases s; cases t; exact congrArg String.mk h

theorem decDigitChar_toNat {d : Nat} (h : d < 10) : (decDigitChar d).toNat = 48 + d := by
  unfold decDigitChar; interval_cases d <;> rfl

theorem decVal_decDigitsAux : ∀ fuel n, n ≤ fuel → decVal (decDigitsAux fuel n) = n := by
  intro fuel
  induction fuel with
  | zero => intro n hn; interval_cases n; rfl
  | succ fuel ih =>
    intro n hn
    by_cases h0 : n = 0
    · subst h0; rfl
    · have hdiv : n / 10 < n := Nat.div_lt_self (Nat.pos_of_ne_zero h0) (by norm_num)
      have hle : n / 10 ≤ fuel := by omega
      have hmod : n % 10 < 10 := Nat.mod_lt n (by norm_num)
      have e : decDigitsAux (fuel + 1) n =
          if n = 0 then [] else decDigitsAux fuel (n / 10) ++ [decDigitChar (n % 10)] := rfl
      calc decVal (decDigitsAux (fuel + 1) n)
          = decVal (decDigitsAux fuel (n / 10) ++ [decDigitChar (n % 10)]) := by
            rw [e, if_neg h0]
        _ = 10 * decVal (decDigitsAux fuel (n / 10)) + ((decDigitChar (n % 10)).toNat - 48) := by
            unfold decVal; simp [List.foldl_append]
        _ = 10 * (n / 10) + (n % 10) := by rw [ih _ hle, decDigitChar_toNat hmod]; omega
        _ = n := Nat.div_add_mod n 10

theorem decRepr_data_of_pos {n : Nat} (h : n ≠ 0) : (decRepr n).data = decDigitsAux n n := by
  unfold decRepr; simp [h]

theorem decVal_decRepr {n : Nat} (h : n ≠ 0) : decVal (decRepr n).data = n := by
  rw [decRepr_data_of_pos h]; exact decVal_decDigitsAux n n le_rfl

theorem decRepr_length_pos (n : Nat) : 0 < (decRepr n).data.length := by
  by_cases h0 : n = 0
  · subst h0; decide
  · rw [decRepr_data_of_pos h0]
    obtain ⟨m, rfl⟩ := Nat.exists_eq_succ_of_ne_zero (by omega : n ≠ 0)
    unfold decDigitsAux
    simp

theorem decRepr_injective : ∀ m n : Nat, decRepr m = decRepr n → m = n := by
  intro m n h
  by_cases hm : m = 0 <;> by_cases hn : n = 0
  · omega
  · exfalso
    have hd : (decRepr m).data = (decRepr n).data := congrArg String.data h
    have : decVal (decRepr n).data = n := decVal_decRepr hn
    rw [← hd] at this
    subst hm
    have : decVal (decRepr 0).data = 0 := by decide
    omega
  · exfalso
    have hd : (decRepr m).data = (decRepr n).data := congrArg String.data h
    have hv : decVal (decRepr m).data = m := decVal_decRepr hm
    rw [hd] at hv
    subst hn
    have : decVal (decRepr 0).data = 0 := by decide
    omega
  · have hd : (decRepr m).data = (decRepr n).data := congrArg String.data h
    have hv : decVal (decRepr m).data = m := decVal_decRepr hm
    rw [hd, decVal_decRepr hn] at hv
    omega

theorem pathStem_append_pathExt (s : String) :
    (pathStem s).data ++ (pathExt s).data = s.data := by
  unfold pathStem pathExt
  exact List.take_append_drop _ _

theorem candName_data_succ (name : String) (i : Nat) :
    (candName name (i + 1)).data =
      (pathStem name).data ++ '_' :: ((decRepr (i + 1)).data ++ (pathExt name).data) := by
  unfold candName
  simp [String.data_append, List.append_assoc]

theorem candName_length_succ (name : String) (i : Nat) :
    (candName name (i + 1)).data.length =
      name.data.length + 1 + (decRepr (i + 1)).data.length := by
  rw [candName_data_succ]
  have h := congrArg List.length (pathStem_append_pathExt name)
  simp only [List.length_append] at h
  simp only [List.length_append, List.length_cons]
  omega

theorem candName_injective (name : String) : ∀ i j : Nat,
    candName name i = candName name j → i = j := by
  intro i j h
  match i, j with
  | 0, 0 => rfl
  | 0, j + 1 =>
    exfalso
    have hl := congrArg (fun s => s.data.length) h
    simp only [candName_length_succ] at hl
    have h0 : candName name 0 = name := by unfold candName; simp
    rw [h0] at hl
    have := decRepr_length_pos (j + 1)
    omega
  | i + 1, 0 =>
    exfalso
    have hl := congrArg (fun s => s.data.length) h
    simp only [candName_length_succ] at hl
    have h0 : candName name 0 = name := by unfold candName; simp
    rw [h0] at hl
    have := decRepr_length_pos (i + 1)
    omega
  | i + 1, j + 1 =>
    have hd := congrArg String.data h
    rw [candName_data_succ, candName_data_succ] at hd
    have hd2 := List.append_cancel_left hd
    have hd3 : (decRepr (i + 1)).data ++ (pathExt name).data =
        (decRepr (j + 1)).data ++ (pathExt name).data := by
      injection hd2
    have hd4 := List.append_cancel_right hd3
    have := decRepr_injective (i + 1) (j + 1) (str_ext hd4)
    omega

theorem pathJoin_injective (dir : String) {a b : String}
    (h : dir ++ "/" ++ a = dir ++ "/" ++ b) : a = b := by
  have hd := congrArg String.data h
  simp only [String.data_append, List.append_assoc] at hd
  exact str_ext (List.append_cancel_left (List.append_cancel_left hd))

theorem FS.mem_paths_of_existsPath {fs : FS} {p : String}
    (h : fs.existsPath p = true) : p ∈ fs.paths := by
  unfold FS.existsPath FS.isFile FS.isDir at h
  unfold FS.paths
  rcases Bool.or_eq_true _ _ |>.mp h with h | h
  · obtain ⟨e, he, heq⟩ := List.any_eq_true.mp h
    exact List.mem_append.mpr (Or.inl (List.mem_map.mpr ⟨e, he, (beq_iff_eq.mp heq).symm ▸ rfl⟩))
  · exact List.mem_append.mpr (Or.inr (by simpa using h))

theorem nextFreeNameAux_succ (ex : String → Bool) (dir name : String) (fuel i : Nat) :
    nextFreeNameAux ex dir name (fuel + 1) i =
      if ex (dir ++ "/" ++ candName name i) then nextFreeNameAux ex dir name fuel (i + 1)
      else candName name i := rfl

theorem nextFreeNameAux_eq_cand (ex : String → Bool) (dir name : String) :
    ∀ fuel i, ∃ j, nextFreeNameAux ex dir name fuel i = candName name j := by
  intro fuel
  induction fuel with
  | zero => intro i; exact ⟨i, rfl⟩
  | succ fuel ih =>
    intro i
    by_cases h : ex (dir ++ "/" ++ candName name i) = true
    · obtain ⟨j, hj⟩ := ih (i + 1)
      exact ⟨j, by rw [nextFreeNameAux_succ, if_pos h]; exact hj⟩
    · exact ⟨i, by rw [nextFreeNameAux_succ, if_neg h]⟩

theorem nextFreeNameAux_spec (ex : String → Bool) (dir name : String) :
    ∀ fuel i, ex (dir ++ "/" ++ nextFreeNameAux ex dir name fuel i) = false ∨
      ∀ j, i ≤ j → j ≤ i + fuel → ex (dir ++ "/" ++ candName name j) = true := by
  intro fuel
  induction fuel with
  | zero =>
    intro i
    by_cases h : ex (dir ++ "/" ++ candName name i) = true
    · right
      intro j hj1 hj2
      have : j = i := by omega
      subst this; exact h
    · left
      show ex (dir ++ "/" ++ candName name i) = false
      simpa using h
  | succ fuel ih =>
    intro i
    by_cases h : ex (dir ++ "/" ++ candName name i) = true
    · have hrw : nextFreeNameAux ex dir name (fuel + 1) i =
          nextFreeNameAux ex dir name fuel (i + 1) := by
        rw [nextFreeNameAux_succ, if_pos h]
      rcases ih (i + 1) with hl | hr
      · left; rw [hrw]; exact hl
      · right
        intro j hj1 hj2
        by_cases hji : j = i
        · subst hji; exact h
        · exact hr j (by omega) (by omega)
    · left
      have hrw : nextFreeNameAux ex dir name (fuel + 1) i = candName name i := by
        rw [nextFreeNameAux_succ, if_neg h]
      rw [hrw]; simpa using h

/-- The chosen destination of the collision loop never exists already:
the loop's fuel `|paths| + 1` cannot run out, because the candidates are
pairwise distinct while the filesystem has only `|paths|` entries. -/
theorem nextFreeName_fresh (fs : FS) (dir name : String) :
    fs.existsPath (dir ++ "/" ++ nextFreeName fs dir name) = false := by
  unfold nextFreeName
  rcases nextFreeNameAux_spec (fun p => fs.existsPath p) dir name (fs.paths.length + 1) 0
    with h | h
  · exact h
  · exfalso
    set N := fs.paths.length with hN
    have hmem : ∀ x ∈ (List.range (N + 2)).map
        (fun j => dir ++ "/" ++ candName name j), x ∈ fs.paths := by
      intro x hx
      obtain ⟨j, hj, rfl⟩ := List.mem_map.mp hx
      have hj2 : j ≤ N + 1 := by
        have := List.mem_range.mp hj; omega
      exact FS.mem_paths_of_existsPath (h j (by omega) (by omega))
    have hnodup : ((List.range (N + 2)).map
        (fun j => dir ++ "/" ++ candName name j)).Nodup := by
      refine (List.nodup_range (N + 2)).map_on ?_
      intro i _ j _ hij
      exact candName_injective name i j (pathJoin_injective dir hij)
    have hle := (List.subperm_of_subset hnodup hmem).length_le
    simp only [List.length_map, List.length_range] at hle
    omega

theorem FS.isFile_writeFile_self (fs : FS) (p c : String) :
    (fs.writeFile p c).isFile p = true := by
  unfold FS.writeFile FS.isFile
  simp

theorem any_filter_of_imp {α : Type} (l : List α) (f g : α → Bool)
    (h : ∀ a, g a = true → f a = true) : (l.filter f).any g = l.any g := by
  induction l with
  | nil => rfl
  | cons x xs ih =>
    by_cases hf : f x = true
    · simp [List.filter_cons, hf, ih]
    · have hg : g x = false := by
        cases hgx : g x
        · rfl
        · exact absurd (h x hgx) hf
      simp [List.filter_cons, hf, hg, ih]

theorem find?_filter_of_imp {α : Type} (l : List α) (f g : α → Bool)
    (h : ∀ a, g a = true → f a = true) : (l.filter f).find? g = l.find? g := by
  induction l with
  | nil => rfl
  | cons x xs ih =>
    by_cases hg : g x = true
    · have hf := h x hg
      simp [List.filter_cons, hf, List.find?_cons_of_pos, hg]
    · by_cases hf : f x = true
      · simp [List.filter_cons, hf, List.find?_cons_of_neg, hg, ih]
      · simp [List.filter_cons, hf, List.find?_cons_of_neg, hg, ih]

theorem FS.isFile_writeFile_other (fs : FS) {p q : String} (c : String)
    (h : q ≠ p) : (fs.writeFile p c).isFile q = fs.isFile q := by
  unfold FS.writeFile FS.isFile
  simp only [List.any_cons]
  have h1 : ((p, c).1 == q) = false := by simpa using fun e => h e.symm
  rw [h1, Bool.false_or]
  exact any_filter_of_imp _ _ _ fun e he => by
    have : e.1 = q := by simpa using he
    simpa [this] using fun e2 => h (by rw [e2])

theorem FS.isFile_mkdir (fs : FS) (d p : String) :
    (fs.mkdir d).isFile p = fs.isFile p := by
  unfold FS.mkdir FS.isFile
  by_cases h : fs.isDir d = true <;> simp [h]

theorem FS.getFile_mkdir (fs : FS) (d p : String) :
    (fs.mkdir d).getFile p = fs.getFile p := by
  unfold FS.mkdir FS.getFile
  by_cases h : fs.isDir d = true <;> simp [h]

theorem FS.isDir_mkdir_of_isDir (fs : FS) {d p : String} (h : fs.isDir p = true) :
    (fs.mkdir d).isDir p = true := by
  unfold FS.mkdir FS.isDir at *
  by_cases hd : fs.dirs.contains d = true <;> simp_all

theorem FS.isFile_rmtree_of_not_prefix (fs : FS) {d p : String}
    (h : (d ++ "/").data.isPrefixOf p.data = false) :
    (fs.rmtree d).isFile p = fs.isFile p := by
  have h2 : (d.data ++ ['/']).isPrefixOf p.data = false := by
    simpa [String.data_append] using h
  unfold FS.rmtree FS.isFile
  simp only
  exact any_filter_of_imp _ _ _ fun e he => by
    have hq : e.1 = p := by simpa using he
    simp [hq, h2]

theorem FS.getFile_rmtree_of_not_prefix (fs : FS) {d p : String}
    (h : (d ++ "/").data.isPrefixOf p.data = false) :
    (fs.rmtree d).getFile p = fs.getFile p := by
  have h2 : (d.data ++ ['/']).isPrefixOf p.data = false := by
    simpa [String.data_append] using h
  unfold FS.rmtree FS.getFile
  simp only
  rw [find?_filter_of_imp _ _ _ fun e he => by
    have hq : e.1 = p := by simpa using he
    simp [hq, h2]]

theorem FS.isFile_rmtree_of_prefix (fs : FS) {d p : String}
    (h : (d ++ "/").data.isPrefixOf p.data = true) :
    (fs.rmtree d).isFile p = false := by
  have h2 : (d.data ++ ['/']).isPrefixOf p.data = true := by
    simpa [String.data_append] using h
  unfold FS.rmtree FS.isFile
  simp only [List.any_filter]
  rw [List.any_eq_false]
  intro e _
  by_cases hq : e.1 = p
  · simp [hq, h2]
  · simp [hq]

theorem FS.isDir_rmtree_self (fs : FS) (d : String) :
    (fs.rmtree d).isDir d = false := by
  unfold FS.rmtree FS.isDir
  simp only [List.contains_eq_any_beq, List.any_filter]
  rw [List.any_eq_false]
  intro e _
  by_cases hq : e = d
  · simp [hq]
  · intro hcontra
    simp only [Bool.and_eq_true, beq_iff_eq] at hcontra
    exact hq (by
      rcases hcontra with ⟨-, h2⟩
      exact h2.symm)

theorem takeWhile_append_of_all {p : Char → Bool} :
    ∀ (l : List Char) (x : Char) (r : List Char), (∀ c ∈ l, p c = true) → p x = false →
      (l ++ x :: r).takeWhile p = l := by
  intro l
  induction l with
  | nil => intro x r _ hx; simp [List.takeWhile_cons, hx]
  | cons a as ih =>
    intro x r hall hx
    have ha : p a = true := hall a (by simp)
    simp only [List.cons_append, List.takeWhile_cons, ha]
    simp [ih x r (fun c hc => hall c (by simp [hc])) hx]

theorem baseName_noSlash (p : String) : noSlash (baseName p) := by
  unfold noSlash baseName
  intro hmem
  simp only [List.mem_reverse] at hmem
  have := List.mem_takeWhile_imp hmem
  simp at this

theorem baseName_append_of_noSlash {y : String} (hy : noSlash y) (x : String) :
    baseName (x ++ "/" ++ y) = y := by
  unfold baseName
  apply str_ext
  simp only [String.data_append]
  have hdata : (x.data ++ "/".data) ++ y.data = x.data ++ '/' :: y.data := by
    simp
  rw [hdata, List.reverse_append]
  have : ('/' :: y.data).reverse = y.data.reverse ++ ['/'] := by simp
  rw [this, List.append_assoc]
  show (List.takeWhile (fun c => c != '/')
    (y.data.reverse ++ '/' :: x.data.reverse)).reverse = y.data
  rw [takeWhile_append_of_all y.data.reverse '/' x.data.reverse ?_ (by decide)]
  · simp
  · intro c hc
    simp only [List.mem_reverse] at hc
    have : c ≠ '/' := fun e => hy (e ▸ hc)
    simpa using this

theorem decDigitsAux_mem : ∀ fuel n c, c ∈ decDigitsAux fuel n →
    ∃ d, d < 10 ∧ c = decDigitChar d := by
  intro fuel
  induction fuel with
  | zero => intro n c hc; simp [decDigitsAux] at hc
  | succ fuel ih =>
    intro n c hc
    by_cases h0 : n = 0
    · subst h0; simp [decDigitsAux] at hc
    · have e : decDigitsAux (fuel + 1) n =
          decDigitsAux fuel (n / 10) ++ [decDigitChar (n % 10)] := by
        show (if n = 0 then [] else _) = _
        rw [if_neg h0]
      rw [e] at hc
      rcases List.mem_append.mp hc with hc | hc
      · exact ih _ c hc
      · exact ⟨n % 10, Nat.mod_lt n (by omega), by simpa using hc⟩

theorem decRepr_noSlash (n : Nat) : noSlash (decRepr n) := by
  unfold noSlash
  intro hmem
  by_cases h0 : n = 0
  · subst h0; simp [decRepr] at hmem
  · rw [decRepr_data_of_pos h0] at hmem
    obtain ⟨d, hd, he⟩ := decDigitsAux_mem n n '/' hmem
    have := decDigitChar_toNat hd
    rw [← he] at this
    have h47 : ('/').toNat = 47 := rfl
    omega

theorem candName_noSlash {name : String} (h : noSlash name) (i : Nat) :
    noSlash (candName name i) := by
  match i with
  | 0 => unfold candName; simpa using h
  | i + 1 =>
    unfold noSlash
    rw [candName_data_succ]
    intro hmem
    rcases List.mem_append.mp hmem with hc | hc
    · exact h (List.take_subset _ _ (by simpa [pathStem] using hc))
    · rcases List.mem_cons.mp hc with hc | hc
      · exact absurd hc (by decide)
      · rcases List.mem_append.mp hc with hc | hc
        · exact decRepr_noSlash (i + 1) hc
        · exact h (List.drop_subset _ _ (by simpa [pathExt] using hc))

theorem nextFreeName_noSlash (fs : FS) (dir : String) {name : String}
    (h : noSlash name) : noSlash (nextFreeName fs dir name) := by
  unfold nextFreeName
  obtain ⟨j, hj⟩ := nextFreeNameAux_eq_cand (fun p => fs.existsPath p) dir name
    (fs.paths.length + 1) 0
  rw [hj]
  exact candName_noSlash h j

/-! ## Claims about the timestamp normalizer (C1, C10) -/

theorem dateLtB_irrefl (d : Option ℚ) : dateLtB d d = false := by
  cases d <;> simp [dateLtB]

/-- Claim C1: the timestamp normalizer maps null, integer-zero and
non-numeric inputs to the unknown marker (`none`) without raising; every
integer `t > 10^12` yields the Apple epoch plus `t/1e9` seconds, and every
integer `0 < t ≤ 10^12` yields the Apple epoch plus `t` seconds. -/
theorem claim_C1_timestamp_normalizer :
    apple_timestamp_to_datetime SqlValue.null = none ∧
    (∀ v : SqlValue, pyInt v = some 0 → apple_timestamp_to_datetime v = none) ∧
    (∀ v : SqlValue, pyInt v = none → apple_timestamp_to_datetime v = none) ∧
    (∀ t : Int, t > 10 ^ 12 →
      apple_timestamp_to_datetime (SqlValue.intv t) = some ((t : ℚ) / 1000000000)) ∧
    (∀ t : Int, 0 < t → t ≤ 10 ^ 12 →
      apple_timestamp_to_datetime (SqlValue.intv t) = some ((t : ℚ))) := by
  refine ⟨rfl, ?_, ?_, ?_, ?_⟩
  · intro v hv
    unfold apple_timestamp_to_datetime
    rw [hv]
    simp
  · intro v hv
    unfold apple_timestamp_to_datetime
    rw [hv]
  · intro t ht
    unfold apple_timestamp_to_datetime
    show (if t = 0 then none else if t > 10 ^ 12 then _ else _) = _
    rw [if_neg (by omega), if_pos ht]
  · intro t ht1 ht2
    unfold apple_timestamp_to_datetime
    show (if t = 0 then none else if t > 10 ^ 12 then _ else _) = _
    rw [if_neg (by omega), if_neg (by omega)]

/-- Witness for C1 at the concrete seconds-range input `t = 5`. -/
theorem claim_C1_witness :
    apple_timestamp_to_datetime (SqlValue.intv 5) = some (((5 : Int) : ℚ)) :=
  claim_C1_timestamp_normalizer.2.2.2.2 5 (by norm_num) (by norm_num)

/-- Claim C10: the normalizer classifies only after `int()` truncation — the
result on any numeric value equals the result on its truncation; fractional
inputs in `(-1, 1) \ {0}` truncate to `0` and yield the unknown marker; a
negative integer yields the Apple epoch plus `t` seconds (an instant before
2001-01-01), not the unknown marker. -/
theorem claim_C10_truncation :
    (∀ (v : SqlValue) (n : Int), pyInt v = some n →
      apple_timestamp_to_datetime v = apple_timestamp_to_datetime (SqlValue.intv n)) ∧
    (∀ q : ℚ, 0 < |q| → |q| < 1 →
      apple_timestamp_to_datetime (SqlValue.floatv q) = none) ∧
    (∀ t : Int, t < 0 →
      apple_timestamp_to_datetime (SqlValue.intv t) = some ((t : ℚ)) ∧ ((t : ℚ)) < 0) := by
  refine ⟨?_, ?_, ?_⟩
  · intro v n hv
    unfold apple_timestamp_to_datetime
    rw [hv]
    rfl
  · intro q h1 h2
    have htr : ratTrunc q = 0 := by
      unfold ratTrunc
      by_cases hq : 0 ≤ q
      · rw [if_pos hq, Int.floor_eq_zero_iff]
        constructor
        · exact hq
        · calc q ≤ |q| := le_abs_self q
            _ < 1 := h2
      · rw [if_neg hq, Int.ceil_eq_zero_iff]
        push_neg at hq
        constructor
        · have : -q ≤ |q| := neg_le_abs q
          linarith
        · exact le_of_lt hq
    unfold apple_timestamp_to_datetime
    show (match pyInt (SqlValue.floatv q) with | none => none | some v => _) = none
    simp only [pyInt, htr]
    simp
  · intro t ht
    constructor
    · unfold apple_timestamp_to_datetime
      show (if t = 0 then none else if t > 10 ^ 12 then _ else _) = _
      rw [if_neg (by omega), if_neg (by omega)]
    · exact_mod_cast ht

/-- Witness for C10 at the concrete negative input `t = -5`. -/
theorem claim_C10_witness :
    apple_timestamp_to_datetime (SqlValue.intv (-5)) = some (((-5 : Int) : ℚ)) ∧
      (((-5 : Int) : ℚ)) < 0 :=
  claim_C10_truncation.2.2 (-5) (by norm_num)

/-! ## Claims about `sanitize_filename` (C4) -/

theorem sanitizeAux_allowed : ∀ (b : Bool) (l : List Char) (c : Char),
    c ∈ sanitizeAux b l → allowedChar c = true := by
  intro b l
  induction l generalizing b with
  | nil => intro c hc; simp [sanitizeAux] at hc
  | cons a as ih =>
    intro c hc
    unfold sanitizeAux at hc
    by_cases ha : allowedChar a = true
    · rw [if_pos ha] at hc
      rcases List.mem_cons.mp hc with hc | hc
      · exact hc ▸ ha
      · exact ih _ c hc
    · rw [if_neg ha] at hc
      by_cases hb : b = true
      · rw [if_pos hb] at hc
        exact ih _ c hc
      · rw [if_neg hb] at hc
        rcases List.mem_cons.mp hc with hc | hc
        · subst hc; decide
        · exact ih _ c hc

/-- Claim C4 (counterexample to the claim as stated): the script collapses a
whole run of disallowed characters into a single underscore, so on `"a!!b"`
the result is `"a_b"`, not the per-character replacement `"a__b"` the claim
describes; it also strips surrounding whitespace first, so `" a "` becomes
`"a"`, not `"_a_"`. -/
theorem claim_C4_counterexample :
    sanitize_filename "a!!b" = "a_b" ∧
    sanitize_filename_claimed "a!!b" = "a__b" ∧
    sanitize_filename "a!!b" ≠ sanitize_filename_claimed "a!!b" ∧
    sanitize_filename " a " = "a" ∧
    sanitize_filename_claimed " a " = "_a_" := by
  refine ⟨by decide, by decide, by decide, by decide, by decide⟩

/-- Claim C4 (amended): `sanitize_filename` strips leading and trailing
whitespace and replaces every maximal run of characters outside
{letters, digits, underscore, period, hyphen} by a single underscore, so the
result contains only characters of that set; when sanitization yields the
empty string the fixed placeholder `"contact"` is returned. -/
theorem claim_C4_sanitize (handle : String) :
    (∀ c ∈ (sanitize_filename handle).data, allowedChar c = true) ∧
    sanitize_filename handle ≠ "" ∧
    (sanitizeChars (stripChars handle.data) = [] →
      sanitize_filename handle = "contact") := by
  refine ⟨?_, ?_, ?_⟩
  · intro c hc
    unfold sanitize_filename at hc
    by_cases h : sanitizeChars (stripChars handle.data) = []
    · rw [if_pos h] at hc
      fin_cases hc <;> decide
    · rw [if_neg h] at hc
      exact sanitizeAux_allowed false _ c hc
  · unfold sanitize_filename
    by_cases h : sanitizeChars (stripChars handle.data) = []
    · rw [if_pos h]; decide
    · rw [if_neg h]
      intro hcontra
      exact h (congrArg String.data hcontra)
  · intro h
    unfold sanitize_filename
    rw [if_pos h]

/-- Witness for C4 at the whitespace-only input `"  "`. -/
theorem claim_C4_witness : sanitize_filename "  " = "contact" :=
  (claim_C4_sanitize "  ").2.2 (by decide)

/-! ## Claims about the attachment resolver (C2) -/

/-- Claim C2 (counterexample to the claim as stated): when the marker
pattern is absent the script returns "not found" immediately and never
tries any candidate under `root` — even when that fallback candidate
exists on disk (here `root = "r"` itself exists). -/
theorem claim_C2_counterexample :
    resolve_attachment_path (some "photo.jpg") "r" ⟨[], ["r"]⟩ = none ∧
    resolve_attachment_path_claimed "photo.jpg" "r" ⟨[], ["r"]⟩ = some "r" ∧
    resolve_attachment_path (some "photo.jpg") "r" ⟨[], ["r"]⟩ ≠
      resolve_attachment_path_claimed "photo.jpg" "r" ⟨[], ["r"]⟩ := by
  refine ⟨by decide, by decide, by decide⟩

/-- Claim C2 (amended): for a null or empty fragment, or a fragment without
the `Library/SMS/Attachments/` marker, the resolver returns "not found"
without consulting the disk; when the marker is present it returns the first
existing of the primary candidate `root/Library/SMS/Attachments/<remainder>`
and the fallback `root/<remainder>`, and "not found" when neither exists. -/
theorem claim_C2_resolver :
    (∀ (root : String) (fs : FS), resolve_attachment_path none root fs = none ∧
      resolve_attachment_path (some "") root fs = none) ∧
    (∀ (p root : String) (fs : FS) (rel : String), anchorGroup p = some rel → p ≠ "" →
      fs.existsPath (root ++ "/Library/SMS/Attachments/" ++ rel) = true →
      resolve_attachment_path (some p) root fs =
        some (root ++ "/Library/SMS/Attachments/" ++ rel)) ∧
    (∀ (p root : String) (fs : FS) (rel : String), anchorGroup p = some rel → p ≠ "" →
      fs.existsPath (root ++ "/Library/SMS/Attachments/" ++ rel) = false →
      fs.existsPath (root ++ "/" ++ rel) = true →
      resolve_attachment_path (some p) root fs = some (root ++ "/" ++ rel)) ∧
    (∀ (p root : String) (fs : FS) (rel : String), anchorGroup p = some rel → p ≠ "" →
      fs.existsPath (root ++ "/Library/SMS/Attachments/" ++ rel) = false →
      fs.existsPath (root ++ "/" ++ rel) = false →
      resolve_attachment_path (some p) root fs = none) ∧
    (∀ (p root : String) (fs : FS), anchorGroup p = none →
      resolve_attachment_path (some p) root fs = none) := by
  have hsome : ∀ (p root : String) (fs : FS),
      resolve_attachment_path (some p) root fs =
        if p = "" then none
        else
          match anchorGroup p with
          | none => none
          | some relative =>
            let candidate := root ++ "/Library/SMS/Attachments/" ++ relative
            if fs.existsPath candidate then some candidate
            else
              let candidate2 := root ++ "/" ++ relative
              if fs.existsPath candidate2 then some candidate2 else none :=
    fun _ _ _ => rfl
  refine ⟨?_, ?_, ?_, ?_, ?_⟩
  · intro root fs
    constructor
    · rfl
    · rw [hsome, if_pos rfl]
  · intro p root fs rel hg hp hex
    rw [hsome, if_neg hp, hg]
    simp only [hex]
    rfl
  · intro p root fs rel hg hp hex1 hex2
    rw [hsome, if_neg hp, hg]
    simp only [hex1, hex2]
    rfl
  · intro p root fs rel hg hp hex1 hex2
    rw [hsome, if_neg hp, hg]
    simp only [hex1, hex2]
    rfl
  · intro p root fs hg
    by_cases hp : p = ""
    · rw [hsome, if_pos hp]
    · rw [hsome, if_neg hp, hg]

/-- Witness for C2 at a concrete fragment with marker and an existing
primary candidate. -/
theorem claim_C2_witness :
    resolve_attachment_path (some "x/Library/SMS/Attachments/ab.jpg") "r"
      ⟨[("r/Library/SMS/Attachments/ab.jpg", "img")], []⟩ =
      some ("r" ++ "/Library/SMS/Attachments/" ++ "ab.jpg") :=
  claim_C2_resolver.2.1 "x/Library/SMS/Attachments/ab.jpg" "r"
    ⟨[("r/Library/SMS/Attachments/ab.jpg", "img")], []⟩ "ab.jpg"
    (by decide) (by decide) (by decide)

/-! ## Claim about row ordering (C8) -/

/-- Claim C8: the rows returned by `fetch_messages` are non-decreasing in
the raw `date` key (SQLite `NULL` first, then numeric order), with the
message row id ascending as tie-break: whenever `i < j`, either the `i`-th
date sorts strictly before the `j`-th or the two dates are equal, and equal
dates imply ascending message ids — deterministically, also for zero or
`NULL` timestamps. -/
theorem claim_C8_ordering (db : DB) (handle_identifier : String) (i j : Nat)
    (hi : i < (fetch_messages db handle_identifier).length)
    (hj : j < (fetch_messages db handle_identifier).length) (hij : i < j) :
    (dateLtB ((fetch_messages db handle_identifier).get ⟨i, hi⟩).date
        ((fetch_messages db handle_identifier).get ⟨j, hj⟩).date = true ∨
      ((fetch_messages db handle_identifier).get ⟨i, hi⟩).date =
        ((fetch_messages db handle_identifier).get ⟨j, hj⟩).date) ∧
    (((fetch_messages db handle_identifier).get ⟨i, hi⟩).date =
        ((fetch_messages db handle_identifier).get ⟨j, hj⟩).date →
      ((fetch_messages db handle_identifier).get ⟨i, hi⟩).message_id ≤
        ((fetch_messages db handle_identifier).get ⟨j, hj⟩).message_id) := by
  have hs : List.Sorted rowLe (fetch_messages db handle_identifier) :=
    List.sorted_insertionSort rowLe (joinedRows db handle_identifier)
  have hr : rowLe ((fetch_messages db handle_identifier).get ⟨i, hi⟩)
      ((fetch_messages db handle_identifier).get ⟨j, hj⟩) :=
    hs.rel_get_of_lt (Fin.mk_lt_mk.mpr hij)
  rcases hr with hlt | ⟨heq, hle⟩
  · refine ⟨Or.inl hlt, fun heq => ?_⟩
    rw [heq, dateLtB_irrefl] at hlt
    exact absurd hlt (by simp)
  · exact ⟨Or.inr heq, fun _ => hle⟩

/-- Witness for C8 on a two-row database (both rows `NULL`-dated, ids 1, 2). -/
theorem claim_C8_witness :
    (dateLtB ((fetch_messages ⟨[⟨1, 7, none, false, none, none⟩,
          ⟨2, 7, none, true, some "hi", none⟩], [⟨7, "x"⟩], [], []⟩ "x").get
          ⟨0, by decide⟩).date
        ((fetch_messages ⟨[⟨1, 7, none, false, none, none⟩,
          ⟨2, 7, none, true, some "hi", none⟩], [⟨7, "x"⟩], [], []⟩ "x").get
          ⟨1, by decide⟩).date = true ∨
      ((fetch_messages ⟨[⟨1, 7, none, false, none, none⟩,
          ⟨2, 7, none, true, some "hi", none⟩], [⟨7, "x"⟩], [], []⟩ "x").get
          ⟨0, by decide⟩).date =
        ((fetch_messages ⟨[⟨1, 7, none, false, none, none⟩,
          ⟨2, 7, none, true, some "hi", none⟩], [⟨7, "x"⟩], [], []⟩ "x").get
          ⟨1, by decide⟩).date) ∧
    (((fetch_messages ⟨[⟨1, 7, none, false, none, none⟩,
          ⟨2, 7, none, true, some "hi", none⟩], [⟨7, "x"⟩], [], []⟩ "x").get
          ⟨0, by decide⟩).date =
        ((fetch_messages ⟨[⟨1, 7, none, false, none, none⟩,
          ⟨2, 7, none, true, some "hi", none⟩], [⟨7, "x"⟩], [], []⟩ "x").get
          ⟨1, by decide⟩).date →
      ((fetch_messages ⟨[⟨1, 7, none, false, none, none⟩,
          ⟨2, 7, none, true, some "hi", none⟩], [⟨7, "x"⟩], [], []⟩ "x").get
          ⟨0, by decide⟩).message_id ≤
        ((fetch_messages ⟨[⟨1, 7, none, false, none, none⟩,
          ⟨2, 7, none, true, some "hi", none⟩], [⟨7, "x"⟩], [], []⟩ "x").get
          ⟨1, by decide⟩).message_id) :=
  claim_C8_ordering _ "x" 0 1 (by decide) (by decide) (by decide)

/-! ## Claims about `export_for_contact` (C6, C5, C9) -/

theorem append_isPrefixOf_false {A B : String}
    (h : A.data.isPrefixOf B.data = false) (s : String) :
    ((s ++ A).data.isPrefixOf (s ++ B).data) = false := by
  rw [Bool.eq_false_iff] at h ⊢
  intro hc
  apply h
  rw [List.isPrefixOf_iff_prefix] at hc ⊢
  simpa [String.data_append, List.prefix_append_right_inj] using hc

theorem adir_slash_not_prefix_text (output_dir handle_identifier : String) :
    ((attachmentsDirOf output_dir handle_identifier ++ "/").data.isPrefixOf
      (textPathOf output_dir handle_identifier).data) = false := by
  have h1 : attachmentsDirOf output_dir handle_identifier ++ "/" =
      (output_dir ++ "/" ++ sanitize_filename handle_identifier) ++
        ("_attachments" ++ "/") := by
    apply str_ext
    simp [attachmentsDirOf, String.data_append, List.append_assoc]
  have h2 : textPathOf output_dir handle_identifier =
      (output_dir ++ "/" ++ sanitize_filename handle_identifier) ++ ".txt" := by
    apply str_ext
    simp [textPathOf, String.data_append, List.append_assoc]
  rw [h1, h2]
  exact append_isPrefixOf_false (by decide) _

/-- Claim C6: when the transcript file already exists and overwrite is not
requested, `export_for_contact` raises the output-exists error before
anything is opened for writing, and the filesystem — in particular the
pre-existing file's content — is left exactly as it was. -/
theorem claim_C6_output_exists (fs : FS) (db : DB)
    (handle_identifier output_dir : String) (attachments_root : Option String)
    (include_media : Bool)
    (h : fs.existsPath (textPathOf output_dir handle_identifier) = true) :
    export_for_contact fs db handle_identifier output_dir attachments_root
        include_media false =
      Except.error (.fileExistsErr (textPathOf output_dir handle_identifier), fs) := by
  unfold export_for_contact ensure_output_path
  unfold textPathOf at h
  simp [h, textPathOf]

/-- Witness for C6 on a one-file filesystem. -/
theorem claim_C6_witness :
    export_for_contact ⟨[("o/x.txt", "old")], []⟩ ⟨[], [], [], []⟩ "x" "o" none
        false false =
      Except.error (.fileExistsErr (textPathOf "o" "x"),
        ⟨[("o/x.txt", "old")], []⟩) :=
  claim_C6_output_exists ⟨[("o/x.txt", "old")], []⟩ ⟨[], [], [], []⟩ "x" "o" none
    false (by decide)

/-- Claim C5: when the fetch for a contact returns zero rows, the export
raises an error (it never returns a successful empty transcript), and the
transcript file at the contact's output path is neither created nor touched:
its existence and content are exactly as before the call.  When the
pre-existing-output checks pass, the error is precisely the no-data error. -/
theorem claim_C5_no_data (fs : FS) (db : DB)
    (handle_identifier output_dir : String) (attachments_root : Option String)
    (include_media overwrite : Bool)
    (hrows : fetch_messages db handle_identifier = []) :
    (∃ e fs', export_for_contact fs db handle_identifier output_dir attachments_root
        include_media overwrite = Except.error (e, fs') ∧
      fs'.isFile (textPathOf output_dir handle_identifier) =
        fs.isFile (textPathOf output_dir handle_identifier) ∧
      fs'.getFile (textPathOf output_dir handle_identifier) =
        fs.getFile (textPathOf output_dir handle_identifier)) ∧
    ((fs.existsPath (textPathOf output_dir handle_identifier) && !overwrite) = false →
      (include_media = true →
        ((fs.mkdir output_dir).existsPath
          (attachmentsDirOf output_dir handle_identifier) && !overwrite) = false) →
      ∃ fs', export_for_contact fs db handle_identifier output_dir attachments_root
          include_media overwrite = Except.error (.noData handle_identifier, fs')) := by
  have htp : output_dir ++ "/" ++ sanitize_filename handle_identifier ++ ".txt" =
      textPathOf output_dir handle_identifier := rfl
  have had : output_dir ++ "/" ++ sanitize_filename handle_identifier ++ "_attachments" =
      attachmentsDirOf output_dir handle_identifier := rfl
  by_cases hA : (fs.existsPath (textPathOf output_dir handle_identifier) && !overwrite) = true
  · constructor
    · refine ⟨.fileExistsErr (textPathOf output_dir handle_identifier), fs, ?_, rfl, rfl⟩
      unfold export_for_contact ensure_output_path
      simp only [htp, hA]
      simp
    · intro hfalse
      rw [hA] at hfalse
      exact absurd hfalse (by simp)
  · have hA' : (fs.existsPath (textPathOf output_dir handle_identifier) && !overwrite) = false := by
      simpa using hA
    cases him : include_media
    · -- no media: straight to the no-data error on `fs.mkdir output_dir`
      have hres : export_for_contact fs db handle_identifier output_dir attachments_root
          false overwrite =
          Except.error (.noData handle_identifier, fs.mkdir output_dir) := by
        unfold export_for_contact ensure_output_path
        simp only [htp, hA']
        simp [hrows]
      refine ⟨⟨_, _, hres, ?_, ?_⟩, fun _ _ => ⟨_, hres⟩⟩
      · exact FS.isFile_mkdir fs output_dir _
      · exact FS.getFile_mkdir fs output_dir _
    · -- media requested
      by_cases hB : ((fs.mkdir output_dir).existsPath
          (attachmentsDirOf output_dir handle_identifier) && !overwrite) = true
      · have hres : export_for_contact fs db handle_identifier output_dir attachments_root
            true overwrite =
            Except.error (.dirExistsErr (attachmentsDirOf output_dir handle_identifier),
              fs.mkdir output_dir) := by
          unfold export_for_contact ensure_output_path
          simp only [htp, had, hA']
          simp only [Bool.false_eq_true, if_false, if_true]
          simp [hB]
        constructor
        · refine ⟨_, _, hres, ?_, ?_⟩
          · exact FS.isFile_mkdir fs output_dir _
          · exact FS.getFile_mkdir fs output_dir _
        · intro _ hmedia
          rw [hmedia rfl] at hB
          exact absurd hB (by simp)
      · have hB' : ((fs.mkdir output_dir).existsPath
            (attachmentsDirOf output_dir handle_identifier) && !overwrite) = false := by
          simpa using hB
        by_cases hC : ((fs.mkdir output_dir).existsPath
            (attachmentsDirOf output_dir handle_identifier) && overwrite) = true
        · have hres : export_for_contact fs db handle_identifier output_dir attachments_root
              true overwrite =
              Except.error (.noData handle_identifier,
                (fs.mkdir output_dir).rmtree
                  (attachmentsDirOf output_dir handle_identifier)) := by
            unfold export_for_contact ensure_output_path
            simp only [htp, had, hA']
            simp only [Bool.false_eq_true, if_false]
            simp [hB', hC, hrows]
          refine ⟨⟨_, _, hres, ?_, ?_⟩, fun _ _ => ⟨_, hres⟩⟩
          · rw [FS.isFile_rmtree_of_not_prefix _
              (adir_slash_not_prefix_text output_dir handle_identifier)]
            exact FS.isFile_mkdir fs output_dir _
          · rw [FS.getFile_rmtree_of_not_prefix _
              (adir_slash_not_prefix_text output_dir handle_identifier)]
            exact FS.getFile_mkdir fs output_dir _
        · have hC' : ((fs.mkdir output_dir).existsPath
              (attachmentsDirOf output_dir handle_identifier) && overwrite) = false := by
            simpa using hC
          have hres : export_for_contact fs db handle_identifier output_dir attachments_root
              true overwrite =
              Except.error (.noData handle_identifier, fs.mkdir output_dir) := by
            unfold export_for_contact ensure_output_path
            simp only [htp, had, hA']
            simp only [Bool.false_eq_true, if_false]
            simp [hB', hC', hrows]
          refine ⟨⟨_, _, hres, ?_, ?_⟩, fun _ _ => ⟨_, hres⟩⟩
          · exact FS.isFile_mkdir fs output_dir _
          · exact FS.getFile_mkdir fs output_dir _

/-- Witness for C5 on an empty filesystem and an empty database. -/
theorem claim_C5_witness :
    (∃ e fs', export_for_contact ⟨[], []⟩ ⟨[], [], [], []⟩ "x" "o" none false false =
        Except.error (e, fs') ∧
      fs'.isFile (textPathOf "o" "x") = FS.isFile ⟨[], []⟩ (textPathOf "o" "x") ∧
      fs'.getFile (textPathOf "o" "x") = FS.getFile ⟨[], []⟩ (textPathOf "o" "x")) ∧
    ((FS.existsPath ⟨[], []⟩ (textPathOf "o" "x") && !false) = false →
      (false = true →
        ((FS.mkdir ⟨[], []⟩ "o").existsPath (attachmentsDirOf "o" "x") && !false) = false) →
      ∃ fs', export_for_contact ⟨[], []⟩ ⟨[], [], [], []⟩ "x" "o" none false false =
        Except.error (.noData "x", fs')) :=
  claim_C5_no_data ⟨[], []⟩ ⟨[], [], [], []⟩ "x" "o" none false false (by decide)

/-- Claim C9: with overwrite and media export enabled and a pre-existing
attachments directory, `export_for_contact` deletes that directory before
fetching; so on a zero-row contact the no-data error is raised on a state in
which the directory and everything below it are already gone — the no-data
path does not leave prior on-disk output unchanged. -/
theorem claim_C9_rmtree_before_no_data (fs : FS) (db : DB)
    (handle_identifier output_dir : String) (attachments_root : Option String)
    (hdir : (fs.mkdir output_dir).existsPath
      (attachmentsDirOf output_dir handle_identifier) = true)
    (hrows : fetch_messages db handle_identifier = []) :
    export_for_contact fs db handle_identifier output_dir attachments_root true true =
      Except.error (.noData handle_identifier,
        (fs.mkdir output_dir).rmtree (attachmentsDirOf output_dir handle_identifier)) ∧
    ((fs.mkdir output_dir).rmtree (attachmentsDirOf output_dir handle_identifier)).isDir
      (attachmentsDirOf output_dir handle_identifier) = false ∧
    ∀ p : String,
      ((attachmentsDirOf output_dir handle_identifier ++ "/").data.isPrefixOf p.data)
        = true →
      ((fs.mkdir output_dir).rmtree
        (attachmentsDirOf output_dir handle_identifier)).isFile p = false := by
  have htp : output_dir ++ "/" ++ sanitize_filename handle_identifier ++ ".txt" =
      textPathOf output_dir handle_identifier := rfl
  have had : output_dir ++ "/" ++ sanitize_filename handle_identifier ++ "_attachments" =
      attachmentsDirOf output_dir handle_identifier := rfl
  refine ⟨?_, FS.isDir_rmtree_self _ _, fun p hp => FS.isFile_rmtree_of_prefix _ hp⟩
  unfold export_for_contact ensure_output_path
  simp only [htp, had]
  simp [hdir, hrows]

/-- Witness for C9: the attachments directory `o/x_attachments` and a file
inside it exist beforehand; the no-data error state has both removed. -/
theorem claim_C9_witness :
    export_for_contact ⟨[("o/x_attachments/a.jpg", "z")], ["o", "o/x_attachments"]⟩
        ⟨[], [], [], []⟩ "x" "o" none true true =
      Except.error (.noData "x",
        (FS.mkdir ⟨[("o/x_attachments/a.jpg", "z")], ["o", "o/x_attachments"]⟩ "o").rmtree
          (attachmentsDirOf "o" "x")) ∧
    ((FS.mkdir ⟨[("o/x_attachments/a.jpg", "z")], ["o", "o/x_attachments"]⟩ "o").rmtree
      (attachmentsDirOf "o" "x")).isDir (attachmentsDirOf "o" "x") = false :=
  ⟨(claim_C9_rmtree_before_no_data
      ⟨[("o/x_attachments/a.jpg", "z")], ["o", "o/x_attachments"]⟩
      ⟨[], [], [], []⟩ "x" "o" none (by decide) (by decide)).1,
   (claim_C9_rmtree_before_no_data
      ⟨[("o/x_attachments/a.jpg", "z")], ["o", "o/x_attachments"]⟩
      ⟨[], [], [], []⟩ "x" "o" none (by decide) (by decide)).2.1⟩

/-! ## Claims about `format_message` (C3) -/

theorem str_append_empty (s : String) : s ++ "" = s := by
  apply str_ext
  simp [String.data_append]

theorem resolve_falsy (rp : Option String) (root : String) (fs : FS)
    (h : strTruthy rp = false) : resolve_attachment_path rp root fs = none := by
  cases rp with
  | none => rfl
  | some s =>
    have hs : s = "" := by simpa [strTruthy] using h
    subst hs
    rfl

theorem format_message_core_no_media (fs : FS) (row : Row) (handle_identifier : String)
    (ad ar : Option String) :
    format_message_core fs row handle_identifier ad ar false =
      ⟨lineBase row handle_identifier, [], none, fs⟩ := by
  unfold format_message_core
  cases ad <;> cases ar <;> simp [str_append_empty]

theorem format_message_core_media_success (fs : FS) (row : Row)
    (handle_identifier adir aroot p : String)
    (hres : resolve_attachment_path row.filename aroot fs = some p) :
    format_message_core fs row handle_identifier (some adir) (some aroot) true =
      ⟨lineBase row handle_identifier ++ (" " ++ ("[Anhang: " ++
          baseName (adir ++ "/" ++
            nextFreeName (fs.mkdir adir) adir (destNameOf row p)) ++ "]")),
        [baseName (adir ++ "/" ++ nextFreeName (fs.mkdir adir) adir (destNameOf row p))],
        some (nextFreeName (fs.mkdir adir) adir (destNameOf row p)),
        (fs.mkdir adir).copyFile p
          (adir ++ "/" ++ nextFreeName (fs.mkdir adir) adir (destNameOf row p))⟩ := by
  unfold format_message_core
  simp only [hres]
  simp [joinCommaSep]

theorem format_message_core_media_notfound (fs : FS) (row : Row)
    (handle_identifier adir aroot : String)
    (htr : strTruthy row.filename = true)
    (hres : resolve_attachment_path row.filename aroot fs = none) :
    format_message_core fs row handle_identifier (some adir) (some aroot) true =
      ⟨lineBase row handle_identifier ++ (" " ++ ("[Anhang: " ++ notFoundNote ++ "]")),
        [notFoundNote], none, fs⟩ := by
  unfold format_message_core
  simp only [hres]
  simp [htr, joinCommaSep]

theorem format_message_core_falsy (fs : FS) (row : Row) (handle_identifier : String)
    (ad ar : Option String) (im : Bool)
    (htr : strTruthy row.filename = false) :
    format_message_core fs row handle_identifier ad ar im =
      ⟨lineBase row handle_identifier, [], none, fs⟩ := by
  cases im
  · exact format_message_core_no_media fs row handle_identifier ad ar
  · cases ad with
    | none =>
      unfold format_message_core
      simp [htr, str_append_empty]
    | some adir =>
      cases ar with
      | none =>
        unfold format_message_core
        simp [htr, str_append_empty]
      | some aroot =>
        unfold format_message_core
        simp only [resolve_falsy _ _ _ htr]
        simp [htr, str_append_empty]

theorem FS.isFile_copyFile_self (fs : FS) (src dst : String) :
    (fs.copyFile src dst).isFile dst = true :=
  FS.isFile_writeFile_self fs dst _

/-- Claim C3: under the program invariant that media export comes with an
attachments directory and root, a row's transcript line carries an
attachment annotation iff an attachment filename is recorded, media export
is requested and resolution was attempted: on success the annotation is
`[Anhang: <final-name>]` with the copied file's final name, on failure it is
the fixed not-found marker; with media export disabled (or no filename
recorded) no annotation is ever added. -/
theorem claim_C3_attachment_note (fs : FS) (row : Row)
    (handle_identifier : String) (attachments_dir attachments_root : Option String)
    (include_media : Bool)
    (hinv : include_media = true →
      attachments_dir.isSome = true ∧ attachments_root.isSome = true) :
    (include_media = false →
      (format_message_core fs row handle_identifier attachments_dir attachments_root
        include_media).attachments = [] ∧
      (format_message_core fs row handle_identifier attachments_dir attachments_root
        include_media).line = lineBase row handle_identifier) ∧
    (strTruthy row.filename = false →
      (format_message_core fs row handle_identifier attachments_dir attachments_root
        include_media).attachments = [] ∧
      (format_message_core fs row handle_identifier attachments_dir attachments_root
        include_media).line = lineBase row handle_identifier) ∧
    (∀ adir aroot p, include_media = true → attachments_dir = some adir →
      attachments_root = some aroot →
      resolve_attachment_path row.filename aroot fs = some p →
      ∃ f, (format_message_core fs row handle_identifier attachments_dir
          attachments_root include_media).copied = some f ∧
        (format_message_core fs row handle_identifier attachments_dir
          attachments_root include_media).attachments = [baseName (adir ++ "/" ++ f)] ∧
        (format_message_core fs row handle_identifier attachments_dir
          attachments_root include_media).fs.isFile (adir ++ "/" ++ f) = true ∧
        (format_message_core fs row handle_identifier attachments_dir
          attachments_root include_media).line = lineBase row handle_identifier ++
            (" " ++ ("[Anhang: " ++ baseName (adir ++ "/" ++ f) ++ "]"))) ∧
    (∀ aroot, include_media = true → strTruthy row.filename = true →
      attachments_root = some aroot →
      resolve_attachment_path row.filename aroot fs = none →
      (format_message_core fs row handle_identifier attachments_dir attachments_root
        include_media).attachments = [notFoundNote] ∧
      (format_message_core fs row handle_identifier attachments_dir attachments_root
        include_media).line = lineBase row handle_identifier ++
          (" " ++ ("[Anhang: " ++ notFoundNote ++ "]"))) := by
  refine ⟨?_, ?_, ?_, ?_⟩
  · intro him
    subst him
    rw [format_message_core_no_media]
    exact ⟨rfl, rfl⟩
  · intro htr
    rw [format_message_core_falsy fs row handle_identifier _ _ _ htr]
    exact ⟨rfl, rfl⟩
  · intro adir aroot p him hdirx hroot hres
    subst him
    subst hdirx
    subst hroot
    rw [format_message_core_media_success fs row handle_identifier adir aroot p hres]
    exact ⟨nextFreeName (fs.mkdir adir) adir (destNameOf row p), rfl, rfl,
      FS.isFile_copyFile_self _ _ _, rfl⟩
  · intro aroot him htr hroot hres
    subst him
    subst hroot
    obtain ⟨adir, hadir⟩ := Option.isSome_iff_exists.mp (hinv rfl).1
    subst hadir
    rw [format_message_core_media_notfound fs row handle_identifier adir aroot htr hres]
    exact ⟨rfl, rfl⟩

/-- Witness for C3 with media export disabled. -/
theorem claim_C3_witness :
    (format_message_core ⟨[], []⟩ ⟨1, 7, none, false, none, none, some "f.jpg", none, none⟩
      "x" none none false).attachments = [] ∧
    (format_message_core ⟨[], []⟩ ⟨1, 7, none, false, none, none, some "f.jpg", none, none⟩
      "x" none none false).line =
      lineBase ⟨1, 7, none, false, none, none, some "f.jpg", none, none⟩ "x" :=
  (claim_C3_attachment_note ⟨[], []⟩
    ⟨1, 7, none, false, none, none, some "f.jpg", none, none⟩ "x" none none false
    (by simp)).1 rfl

/-! ## Claim about collision-safe attachment naming (C7) -/

theorem FS.isFile_copyFile_other (fs : FS) {src dst q : String} (h : q ≠ dst) :
    (fs.copyFile src dst).isFile q = fs.isFile q :=
  FS.isFile_writeFile_other fs _ h

theorem FS.isFile_false_of_existsPath_false {fs : FS} {p : String}
    (h : fs.existsPath p = false) : fs.isFile p = false := by
  unfold FS.existsPath at h
  exact (Bool.or_eq_false_iff.mp h).1

theorem destNameOf_noSlash (row : Row) (p : String)
    (ht : ∀ t, row.transfer_name = some t → noSlash t) :
    noSlash (destNameOf row p) := by
  unfold destNameOf
  cases htr : row.transfer_name with
  | none => exact baseName_noSlash p
  | some t =>
    show noSlash (if t = "" then baseName p else t)
    by_cases h0 : t = ""
    · rw [if_pos h0]; exact baseName_noSlash p
    · rw [if_neg h0]; exact ht t htr

theorem runRows_copied_inv (handle_identifier adir aroot : String) :
    ∀ (rows : List Row) (fs : FS) (S : List String),
      (∀ n ∈ S, fs.isFile (adir ++ "/" ++ n) = true) →
      S.Nodup →
      (S ++ copiedNames
        (runRows fs rows handle_identifier (some adir) (some aroot) true).2).Nodup ∧
      (∀ n ∈ S ++ copiedNames
          (runRows fs rows handle_identifier (some adir) (some aroot) true).2,
        (runRows fs rows handle_identifier (some adir) (some aroot) true).1.isFile
          (adir ++ "/" ++ n) = true) := by
  intro rows
  induction rows with
  | nil =>
    intro fs S hS hnd
    unfold runRows copiedNames
    simpa using ⟨hnd, hS⟩
  | cons r rs ih =>
    intro fs S hS hnd
    have hrun : runRows fs (r :: rs) handle_identifier (some adir) (some aroot) true =
        ((runRows (format_message_core fs r handle_identifier (some adir) (some aroot)
            true).fs rs handle_identifier (some adir) (some aroot) true).1,
          format_message_core fs r handle_identifier (some adir) (some aroot) true ::
          (runRows (format_message_core fs r handle_identifier (some adir) (some aroot)
            true).fs rs handle_identifier (some adir) (some aroot) true).2) := rfl
    by_cases htr : strTruthy r.filename = true
    · cases hres : resolve_attachment_path r.filename aroot fs with
      | none =>
        rw [hrun, format_message_core_media_notfound fs r handle_identifier adir aroot
          htr hres]
        have := ih fs S hS hnd
        simpa [copiedNames] using this
      | some p =>
        rw [hrun, format_message_core_media_success fs r handle_identifier adir aroot p
          hres]
        set f0 := nextFreeName (fs.mkdir adir) adir (destNameOf r p) with hf0
        set dst := adir ++ "/" ++ f0 with hdst
        have hfresh : (fs.mkdir adir).existsPath dst = false :=
          nextFreeName_fresh (fs.mkdir adir) adir (destNameOf r p)
        have hfreshF : fs.isFile dst = false := by
          have := FS.isFile_false_of_existsPath_false hfresh
          rwa [FS.isFile_mkdir] at this
        have hnotmem : f0 ∉ S := by
          intro hmem
          have := hS f0 hmem
          rw [← hdst] at this
          rw [this] at hfreshF
          exact absurd hfreshF (by simp)
        have hS' : ∀ n ∈ S ++ [f0],
            ((fs.mkdir adir).copyFile p dst).isFile (adir ++ "/" ++ n) = true := by
          intro n hn
          rcases List.mem_append.mp hn with hn | hn
          · by_cases heq : adir ++ "/" ++ n = dst
            · rw [heq]; exact FS.isFile_copyFile_self _ _ _
            · rw [FS.isFile_copyFile_other _ heq, FS.isFile_mkdir]
              exact hS n hn
          · have : n = f0 := by simpa using hn
            rw [this, ← hdst]
            exact FS.isFile_copyFile_self _ _ _
        have hnd' : (S ++ [f0]).Nodup := by
          rw [List.nodup_append]
          exact ⟨hnd, List.nodup_singleton f0, by
            intro a ha hb
            have : a = f0 := by simpa using hb
            exact hnotmem (this ▸ ha)⟩
        have hih := ih ((fs.mkdir adir).copyFile p dst) (S ++ [f0]) hS' hnd'
        simp only [List.append_assoc, List.singleton_append] at hih
        constructor
        · simpa [copiedNames] using hih.1
        · intro n hn
          apply hih.2
          simpa [copiedNames] using hn
    · have htr' : strTruthy r.filename = false := by simpa using htr
      rw [hrun, format_message_core_falsy fs r handle_identifier (some adir)
        (some aroot) true htr']
      have := ih fs S hS hnd
      simpa [copiedNames] using this

theorem runRows_line_ref (handle_identifier adir aroot : String) :
    ∀ (rows : List Row) (fs : FS),
      (∀ r ∈ rows, ∀ t, r.transfer_name = some t → noSlash t) →
      ∀ (i : Nat) (hi : i < rows.length)
        (ho : i < (runRows fs rows handle_identifier (some adir) (some aroot)
          true).2.length) (f : String),
        ((runRows fs rows handle_identifier (some adir) (some aroot) true).2.get
          ⟨i, ho⟩).copied = some f →
        ((runRows fs rows handle_identifier (some adir) (some aroot) true).2.get
          ⟨i, ho⟩).attachments = [f] ∧
        ((runRows fs rows handle_identifier (some adir) (some aroot) true).2.get
          ⟨i, ho⟩).line =
          lineBase (rows.get ⟨i, hi⟩) handle_identifier ++
            (" " ++ ("[Anhang: " ++ f ++ "]")) := by
  intro rows
  induction rows with
  | nil =>
    intro fs htn i hi
    exact absurd hi (by simp)
  | cons r rs ih =>
    intro fs htn i hi ho f hc
    match i with
    | 0 =>
      by_cases htr : strTruthy r.filename = true
      · cases hres : resolve_attachment_path r.filename aroot fs with
        | none =>
          exfalso
          have hrw : ((runRows fs (r :: rs) handle_identifier (some adir) (some aroot)
              true).2.get ⟨0, ho⟩) =
              format_message_core fs r handle_identifier (some adir) (some aroot)
                true := rfl
          rw [hrw, format_message_core_media_notfound fs r handle_identifier adir aroot
            htr hres] at hc
          exact absurd hc (by simp)
        | some p =>
          have hrw : ((runRows fs (r :: rs) handle_identifier (some adir) (some aroot)
              true).2.get ⟨0, ho⟩) =
              format_message_core fs r handle_identifier (some adir) (some aroot)
                true := rfl
          rw [hrw, format_message_core_media_success fs r handle_identifier adir aroot
            p hres] at hc ⊢
          have hf : nextFreeName (fs.mkdir adir) adir (destNameOf r p) = f := by
            simpa using hc
          have hslash : noSlash (nextFreeName (fs.mkdir adir) adir (destNameOf r p)) :=
            nextFreeName_noSlash (fs.mkdir adir) adir
              (destNameOf_noSlash r p (htn r (by simp)))
          rw [hf] at hslash
          constructor
          · show [baseName (adir ++ "/" ++
              nextFreeName (fs.mkdir adir) adir (destNameOf r p))] = [f]
            rw [hf, baseName_append_of_noSlash hslash]
          · show lineBase r handle_identifier ++ (" " ++ ("[Anhang: " ++
              baseName (adir ++ "/" ++
                nextFreeName (fs.mkdir adir) adir (destNameOf r p)) ++ "]")) = _
            rw [hf, baseName_append_of_noSlash hslash]
            rfl
      · exfalso
        have htr' : strTruthy r.filename = false := by simpa using htr
        have hrw : ((runRows fs (r :: rs) handle_identifier (some adir) (some aroot)
            true).2.get ⟨0, ho⟩) =
            format_message_core fs r handle_identifier (some adir) (some aroot)
              true := rfl
        rw [hrw, format_message_core_falsy fs r handle_identifier (some adir)
          (some aroot) true htr'] at hc
        exact absurd hc (by simp)
    | i + 1 =>
      have htn' : ∀ x ∈ rs, ∀ t, x.transfer_name = some t → noSlash t :=
        fun x hx => htn x (by simp [hx])
      exact ih (format_message_core fs r handle_identifier (some adir) (some aroot)
        true).fs htn' i (by simpa using Nat.lt_of_succ_lt_succ hi)
        (by simpa using Nat.lt_of_succ_lt_succ ho) f hc

/-- Claim C7: within one contact's run, every attachment copy gets a
destination name that did not exist yet (numeric-suffix strategy), so the
destination filenames in the contact's media directory are pairwise
distinct; every copied file is still present at the end of the run; and the
transcript line of each row that copied a file carries exactly the final
(possibly suffixed) name of its own copy in its annotation. -/
theorem claim_C7_collision_safety (fs : FS) (rows : List Row)
    (handle_identifier adir aroot : String)
    (htn : ∀ r ∈ rows, ∀ t, r.transfer_name = some t → noSlash t) :
    (copiedNames (runRows fs rows handle_identifier (some adir) (some aroot)
      true).2).Nodup ∧
    (∀ n ∈ copiedNames (runRows fs rows handle_identifier (some adir) (some aroot)
        true).2,
      (runRows fs rows handle_identifier (some adir) (some aroot) true).1.isFile
        (adir ++ "/" ++ n) = true) ∧
    (∀ (i : Nat) (hi : i < rows.length)
      (ho : i < (runRows fs rows handle_identifier (some adir) (some aroot)
        true).2.length) (f : String),
      ((runRows fs rows handle_identifier (some adir) (some aroot) true).2.get
        ⟨i, ho⟩).copied = some f →
      ((runRows fs rows handle_identifier (some adir) (some aroot) true).2.get
        ⟨i, ho⟩).attachments = [f] ∧
      ((runRows fs rows handle_identifier (some adir) (some aroot) true).2.get
        ⟨i, ho⟩).line =
        lineBase (rows.get ⟨i, hi⟩) handle_identifier ++
          (" " ++ ("[Anhang: " ++ f ++ "]"))) := by
  have h1 := runRows_copied_inv handle_identifier adir aroot rows fs []
    (by simp) List.nodup_nil
  simp only [List.nil_append] at h1
  exact ⟨h1.1, h1.2, runRows_line_ref handle_identifier adir aroot rows fs htn⟩

/-- Witness for C7: two attachments that both resolve to destination name
`p.jpg` within one run. -/
theorem claim_C7_witness :
    (copiedNames (runRows
      ⟨[("r/Library/SMS/Attachments/a1/p.jpg", "A"),
        ("r/Library/SMS/Attachments/a2/p.jpg", "B")], []⟩
      [⟨1, 7, none, false, none, none, some "~/Library/SMS/Attachments/a1/p.jpg",
        none, none⟩,
       ⟨2, 7, none, false, none, none, some "~/Library/SMS/Attachments/a2/p.jpg",
        none, none⟩]
      "x" (some "o/x_attachments") (some "r") true).2).Nodup ∧
    (∀ n ∈ copiedNames (runRows
        ⟨[("r/Library/SMS/Attachments/a1/p.jpg", "A"),
          ("r/Library/SMS/Attachments/a2/p.jpg", "B")], []⟩
        [⟨1, 7, none, false, none, none, some "~/Library/SMS/Attachments/a1/p.jpg",
          none, none⟩,
         ⟨2, 7, none, false, none, none, some "~/Library/SMS/Attachments/a2/p.jpg",
          none, none⟩]
        "x" (some "o/x_attachments") (some "r") true).2,
      (runRows
        ⟨[("r/Library/SMS/Attachments/a1/p.jpg", "A"),
          ("r/Library/SMS/Attachments/a2/p.jpg", "B")], []⟩
        [⟨1, 7, none, false, none, none, some "~/Library/SMS/Attachments/a1/p.jpg",
          none, none⟩,
         ⟨2, 7, none, false, none, none, some "~/Library/SMS/Attachments/a2/p.jpg",
          none, none⟩]
        "x" (some "o/x_attachments") (some "r") true).1.isFile
        ("o/x_attachments" ++ "/" ++ n) = true) ∧
    (∀ (i : Nat) (hi : i < ([⟨1, 7, none, false, none, none,
        some "~/Library/SMS/Attachments/a1/p.jpg", none, none⟩,
       ⟨2, 7, none, false, none, none, some "~/Library/SMS/Attachments/a2/p.jpg",
        none, none⟩] : List Row).length)
      (ho : i < (runRows
        ⟨[("r/Library/SMS/Attachments/a1/p.jpg", "A"),
          ("r/Library/SMS/Attachments/a2/p.jpg", "B")], []⟩
        [⟨1, 7, none, false, none, none, some "~/Library/SMS/Attachments/a1/p.jpg",
          none, none⟩,
         ⟨2, 7, none, false, none, none, some "~/Library/SMS/Attachments/a2/p.jpg",
          none, none⟩]
        "x" (some "o/x_attachments") (some "r") true).2.length) (f : String),
      ((runRows
        ⟨[("r/Library/SMS/Attachments/a1/p.jpg", "A"),
          ("r/Library/SMS/Attachments/a2/p.jpg", "B")], []⟩
        [⟨1, 7, none, false, none, none, some "~/Library/SMS/Attachments/a1/p.jpg",
          none, none⟩,
         ⟨2, 7, none, false, none, none, some "~/Library/SMS/Attachments/a2/p.jpg",
          none, none⟩]
        "x" (some "o/x_attachments") (some "r") true).2.get ⟨i, ho⟩).copied = some f →
      ((runRows
        ⟨[("r/Library/SMS/Attachments/a1/p.jpg", "A"),
          ("r/Library/SMS/Attachments/a2/p.jpg", "B")], []⟩
        [⟨1, 7, none, false, none, none, some "~/Library/SMS/Attachments/a1/p.jpg",
          none, none⟩,
         ⟨2, 7, none, false, none, none, some "~/Library/SMS/Attachments/a2/p.jpg",
          none, none⟩]
        "x" (some "o/x_attachments") (some "r") true).2.get ⟨i, ho⟩).attachments =
        [f] ∧
      ((runRows
        ⟨[("r/Library/SMS/Attachments/a1/p.jpg", "A"),
          ("r/Library/SMS/Attachments/a2/p.jpg", "B")], []⟩
        [⟨1, 7, none, false, none, none, some "~/Library/SMS/Attachments/a1/p.jpg",
          none, none⟩,
         ⟨2, 7, none, false, none, none, some "~/Library/SMS/Attachments/a2/p.jpg",
          none, none⟩]
        "x" (some "o/x_attachments") (some "r") true).2.get ⟨i, ho⟩).line =
        lineBase (([⟨1, 7, none, false, none, none,
            some "~/Library/SMS/Attachments/a1/p.jpg", none, none⟩,
          ⟨2, 7, none, false, none, none,
            some "~/Library/SMS/Attachments/a2/p.jpg", none, none⟩] :
            List Row).get ⟨i, hi⟩) "x" ++
          (" " ++ ("[Anhang: " ++ f ++ "]"))) :=
  claim_C7_collision_safety
    ⟨[("r/Library/SMS/Attachments/a1/p.jpg", "A"),
      ("r/Library/SMS/Attachments/a2/p.jpg", "B")], []⟩
    [⟨1, 7, none, false, none, none, some "~/Library/SMS/Attachments/a1/p.jpg",
      none, none⟩,
     ⟨2, 7, none, false, none, none, some "~/Library/SMS/Attachments/a2/p.jpg",
      none, none⟩]
    "x" "o/x_attachments" "r"
    (by
      intro r hr t ht
      rcases List.mem_cons.mp hr with h | h
      · rw [h] at ht; exact absurd ht (by simp)
      · rcases List.mem_cons.mp h with h | h
        · rw [h] at ht; exact absurd ht (by simp)
        · exact absurd h (by simp))
